import Mathlib

/-!
Add-on file list formatting of the WML error dialog

A shallow embedding of `src/gui/dialogs/wml_error.cpp` (Battle for Wesnoth):
`is_dir_separator`, `strip_trailing_dir_separators` and `format_file_list`.

* A `std::string` is a `List Char`; `std::vector<std::string>` is a list of those.
* `size_t` arithmetic is arithmetic on `Nat` modulo `2 ^ 64`.
* Reading `str[i]` with `i` outside the string is undefined behaviour in C++; the
  embedding makes it the explicit outcome `Outcome.out_of_bounds`.
* Functions declared in headers whose bodies live in other translation units
  (`file_name`, `directory_name`, `normalize_path`, `get_addon_campaigns_dir`,
  `have_addon_install_info`, `get_addon_install_info`, `utils::bullet_list`) are
  fields of the structure `Collaborators`; `format_file_list` is embedded over an
  arbitrary value of that structure.
-/

namespace WmlError

/-- A `std::string`, as its sequence of characters. -/
abbrev Str := List Char

/-- The modulus of `size_t` arithmetic. -/
def SIZE_MOD : Nat := 2 ^ 64

/-- Result of running a piece of the program: a value, an access outside a string
(undefined behaviour in C++), or exhaustion of the iteration budget of the model. -/
inductive Outcome (α : Type) where
  | ok (value : α)
  | out_of_bounds
  | out_of_fuel
  deriving DecidableEq

/-- The characters of the literal `"_main.cfg"` (line 59). -/
def main_cfg : Str := ['_', 'm', 'a', 'i', 'n', '.', 'c', 'f', 'g']

/-- The characters of `wml_suffix = ".cfg"` (line 96). -/
def wml_suffix : Str := ['.', 'c', 'f', 'g']

/-- The characters of the literal `"/.."` (line 62). -/
def up_one_level : Str := ['/', '.', '.']

/-- The child key `"info"` (line 112). -/
def info_key : Str := ['i', 'n', 'f', 'o']

/-- The attribute key `"title"` (line 115). -/
def title_key : Str := ['t', 'i', 't', 'l', 'e']

/-- Lines 28-35: `is_dir_separator`; `win32` says whether `_WIN32` is defined.
Character 92 is the backslash. -/
def is_dir_separator (win32 : Bool) (c : Char) : Bool :=
  if win32 then c == '/' || c == Char.ofNat 92 else c == '/'

/-- Lines 39-41, the `while` loop of `strip_trailing_dir_separators`, with an
iteration budget. Each round reads `str[str.size() - 1]`, the index being computed
in `size_t` arithmetic, and erases from that index when the character read is a
separator. -/
def strip_loop (win32 : Bool) : Nat → Str → Outcome Str
  | 0, _ => Outcome.out_of_fuel
  | fuel + 1, str =>
    let idx := (str.length + (SIZE_MOD - 1)) % SIZE_MOD
    match str.get? idx with
    | none => Outcome.out_of_bounds
    | some c =>
      if is_dir_separator win32 c then strip_loop win32 fuel (str.take idx)
      else Outcome.ok str

/-- Lines 37-42: `strip_trailing_dir_separators`. Every round of the loop erases one
character, so `str.size() + 1` rounds are a budget the loop cannot exhaust. -/
def strip_trailing_dir_separators (win32 : Bool) (str : Str) : Outcome Str :=
  strip_loop win32 (str.length + 1) str

/-- Modelled from the spec: the `config` class (`config.hpp`) is missing from the
sources. A record is a tree of sections, each with string attributes and named
child sections ("a nested `info` section with a `title` string field"). -/
inductive config where
  | mk (values : List (Str × Str)) (children : List (Str × config))

/-- Modelled from the spec: `config::child(key)`, the first child section with that
name; `none` stands for the invalid reference that tests false in `if(info_cfg)`. -/
def config.child : config → Str → Option config
  | config.mk _ children, key => children.lookup key

/-- Modelled from the spec: `cfg[key].str()`, the attribute as a string, the empty
string when the attribute is missing. -/
def config.attr_str : config → Str → Str
  | config.mk values _, key => (values.lookup key).getD []

/-- Modelled from the spec: `make_addon_title` (`addon/info.hpp`) is missing from the
sources; the spec describes it as "replacing every underscore in the base identifier
with a single space". -/
def make_addon_title (id : Str) : Str :=
  id.map (fun c => if c = '_' then ' ' else c)

/-- The functions and values that `format_file_list` obtains from other translation
units. -/
structure Collaborators where
  /-- whether `_WIN32` is defined -/
  win32 : Bool
  /-- `file_name` of `filesystem.hpp`: the leaf name of a path -/
  file_name : Str → Str
  /-- `directory_name` of `filesystem.hpp`: the parent directory of a path -/
  directory_name : Str → Str
  /-- `normalize_path` of `filesystem.hpp` -/
  normalize_path : Str → Str
  /-- the value returned by `get_addon_campaigns_dir()`: the add-ons root -/
  addons_path : Str
  /-- `have_addon_install_info` of `addon/manager.hpp` -/
  have_addon_install_info : Str → Bool
  /-- the record that `get_addon_install_info(base, cfg)` stores in `cfg` -/
  get_addon_install_info : Str → config
  /-- `utils::bullet_list` of `serialization/string_utils.hpp` -/
  bullet_list : List Str → Str

/-- Line 59: `is_main_cfg = (file_name(file) == "_main.cfg")`. -/
def is_main_cfg (env : Collaborators) (file : Str) : Bool :=
  decide (env.file_name file = main_cfg)

/-- Lines 61-65: `parent_path`, the candidate containing directory before
normalization. -/
def parent_path (env : Collaborators) (file : Str) : Str :=
  if is_main_cfg env file then env.directory_name file ++ up_one_level
  else env.directory_name file

/-- Line 69, negated: the path is treated as part of the add-ons tree. -/
def in_addons_tree (env : Collaborators) (file : Str) : Bool :=
  decide (env.normalize_path (parent_path env file) = env.normalize_path env.addons_path)

/-- Lines 73-82: the value of `base` before the emptiness test. -/
def derive_base (env : Collaborators) (file : Str) : Outcome Str :=
  if is_main_cfg env file then
    match strip_trailing_dir_separators env.win32 (env.directory_name file) with
    | Outcome.ok base => Outcome.ok (env.file_name base)
    | Outcome.out_of_bounds => Outcome.out_of_bounds
    | Outcome.out_of_fuel => Outcome.out_of_fuel
  else Outcome.ok (env.file_name file)

/-- Lines 96-103: removal of the `".cfg"` extension. `suffix_pos` is computed in
`size_t` arithmetic under the guard `base.size() > wml_suffix.size()`;
`base.substr(suffix_pos)` is `drop` and `base.erase(suffix_pos)` is `take`. -/
def remove_wml_suffix (base : Str) : Str :=
  if base.length > wml_suffix.length then
    let suffix_pos := (base.length + (SIZE_MOD - wml_suffix.length)) % SIZE_MOD
    if base.drop suffix_pos = wml_suffix then base.take suffix_pos else base
  else base

/-- Lines 94-104: the identifier with which the metadata store is queried. -/
def addon_id (env : Collaborators) (file : Str) (base : Str) : Str :=
  if !is_main_cfg env file then remove_wml_suffix base else base

/-- Lines 106-122: the display value of an add-on identifier. -/
def display_name (env : Collaborators) (base : Str) : Str :=
  if env.have_addon_install_info base then
    match (env.get_addon_install_info base).child info_key with
    | some info_cfg => info_cfg.attr_str title_key
    | none => make_addon_title base
  else make_addon_title base

/-- Lines 55-122: one round of the `BOOST_FOREACH` body; the result is the value of
`file` when the round ends (`continue` leaves it as it was). -/
def format_entry (env : Collaborators) (file : Str) : Outcome Str :=
  if !in_addons_tree env file then Outcome.ok file
  else
    match derive_base env file with
    | Outcome.ok base =>
      if base.isEmpty then Outcome.ok file
      else Outcome.ok (display_name env (addon_id env file base))
    | Outcome.out_of_bounds => Outcome.out_of_bounds
    | Outcome.out_of_fuel => Outcome.out_of_fuel

/-- The pointwise map of the per-path function `format_entry` over a list of paths,
as the specification words the output sequence; it has a value when every path has
one. Used to state that the in-place loop `foreach_files` computes exactly this. -/
def pointwise_entries (env : Collaborators) : List Str → Outcome (List Str)
  | [] => Outcome.ok []
  | file :: rest =>
    match format_entry env file with
    | Outcome.ok entry =>
      match pointwise_entries env rest with
      | Outcome.ok entries => Outcome.ok (entry :: entries)
      | Outcome.out_of_bounds => Outcome.out_of_bounds
      | Outcome.out_of_fuel => Outcome.out_of_fuel
    | Outcome.out_of_bounds => Outcome.out_of_bounds
    | Outcome.out_of_fuel => Outcome.out_of_fuel

/-- Lines 53-123: the `BOOST_FOREACH` loop over the copy `files`, as a loop over the
index `i` with `n` rounds left; each round overwrites `files[i]` in place. -/
def foreach_files (env : Collaborators) : Nat → Nat → List Str → Outcome (List Str)
  | 0, _, files => Outcome.ok files
  | n + 1, i, files =>
    match files.get? i with
    | none => Outcome.ok files
    | some file =>
      match format_entry env file with
      | Outcome.ok entry => foreach_files env n (i + 1) (files.set i entry)
      | Outcome.out_of_bounds => Outcome.out_of_bounds
      | Outcome.out_of_fuel => Outcome.out_of_fuel

/-- Lines 51-123: the sequence of entries before the final reduction (this is only
evaluated for a non-empty input). -/
def format_entries (env : Collaborators) (files_original : List Str) :
    Outcome (List Str) :=
  foreach_files env files_original.length 0 files_original

/-- Lines 125-129: the final reduction. -/
def reduce_entries (env : Collaborators) (files : List Str) : Str :=
  match files with
  | [entry] => entry
  | _ => env.bullet_list files

/-- Lines 44-130: `format_file_list`. -/
def format_file_list (env : Collaborators) (files_original : List Str) : Outcome Str :=
  if files_original.isEmpty then Outcome.ok []
  else
    match format_entries env files_original with
    | Outcome.ok files => Outcome.ok (reduce_entries env files)
    | Outcome.out_of_bounds => Outcome.out_of_bounds
    | Outcome.out_of_fuel => Outcome.out_of_fuel

/-- Modelled from the spec: `file_name` (`filesystem.hpp`) is missing from the
sources. It is the spec's `leafName(path)`: what follows the last directory
separator, the whole path when there is none, and the empty string for a path that
ends in a separator ("directory paths with trailing separators return an empty leaf
name"). -/
def file_name (win32 : Bool) (path : Str) : Str :=
  (path.reverse.takeWhile (fun c => !is_dir_separator win32 c)).reverse

/-- Modelled from the spec: `directory_name` (`filesystem.hpp`) is missing from the
sources. It is the spec's `parentDirectory(path)`: the path up to and including its
last directory separator (so that its own leaf name is empty, the case the HACK
comment of lines 75-77 works around), the empty string when there is none. -/
def directory_name (win32 : Bool) (path : Str) : Str :=
  (path.reverse.dropWhile (fun c => !is_dir_separator win32 c)).reverse

/-- One finished path component applied to the (reversed) list of components kept so
far: empty components and `.` are skipped, `..` removes the last kept component (and
does nothing at the root), any other name is kept. -/
def norm_push (stack : List Str) (comp : Str) : List Str :=
  if comp = [] ∨ comp = ['.'] then stack
  else if comp = ['.', '.'] then stack.tail
  else comp :: stack

/-- One character of the path: a separator finishes the current component. -/
def norm_step (win32 : Bool) (st : List Str × Str) (c : Char) : List Str × Str :=
  if is_dir_separator win32 c then (norm_push st.1 st.2, []) else (st.1, st.2 ++ [c])

/-- The components of a path after lexical normalization, first component first. -/
def norm_components (win32 : Bool) (path : Str) : List Str :=
  let st := path.foldl (norm_step win32) ([], [])
  (norm_push st.1 st.2).reverse

/-- Modelled from the spec: `normalize_path` (`filesystem.hpp`) is missing from the
sources. It is the spec's `normalize(path)` "with platform-specific
directory-separator handling", purely lexical (no symlinks, no case folding): the
path is cut at separators, empty and `.` components are dropped, `..` goes "one level
further up", and the remaining components are written each after one `/`; a path with
no component left is the root `/`. Paths are read from the root directory. -/
def normalize_path (win32 : Bool) (path : Str) : Str :=
  match norm_components win32 path with
  | [] => ['/']
  | comps => (comps.map (fun comp => '/' :: comp)).flatten

/-- Modelled from the spec: `utils::bullet_list` (`serialization/string_utils.hpp`) is
missing from the sources; "one bullet per entry, in order": every entry follows the
bullet marker, and consecutive items are separated by a line break. -/
def bullet_list (bullet : Str) (entries : List Str) : Str :=
  ['\n'].intercalate (entries.map (fun entry => bullet ++ entry))

/-- The collaborators with the path utilities modelled from the spec; the add-ons
root, the metadata store and the bullet marker remain free. -/
def spec_env (win32 : Bool) (addons_path : Str) (have_info : Str → Bool)
    (get_info : Str → config) (bullet : Str) : Collaborators :=
  { win32 := win32
    file_name := file_name win32
    directory_name := directory_name win32
    normalize_path := normalize_path win32
    addons_path := addons_path
    have_addon_install_info := have_info
    get_addon_install_info := get_info
    bullet_list := bullet_list bullet }

/-- The path of the main configuration file of the add-on directory `d`:
`<root>/d/_main.cfg`. -/
def main_cfg_path (root d : Str) : Str :=
  (root ++ '/' :: d) ++ '/' :: main_cfg

/-- The path of the regular file `n.cfg` placed in the add-ons root: `<root>/n.cfg`. -/
def addon_file_path (root n : Str) : Str :=
  root ++ '/' :: (n ++ wml_suffix)

/-- The path of a file named `_main.cfg` placed directly in the add-ons root:
`<root>/_main.cfg`. -/
def root_main_cfg_path (root : Str) : Str :=
  root ++ '/' :: main_cfg

/-- The path of the file `f.cfg` placed in the directory `d` of the add-ons root:
`<root>/d/f.cfg`. -/
def nested_file_path (root d f : Str) : Str :=
  (root ++ '/' :: d) ++ '/' :: (f ++ wml_suffix)

/-- The widget id `"summary"` (line 168). -/
def summary_id : Str := ['s', 'u', 'm', 'm', 'a', 'r', 'y']

/-- The widget id `"files"` (lines 169 and 176). -/
def files_id : Str := ['f', 'i', 'l', 'e', 's']

/-- The widget id `"details"` (line 170). -/
def details_id : Str := ['d', 'e', 't', 'a', 'i', 'l', 's']

/-- Modelled from the spec: `tcontrol::tvisible` (`gui/widgets/widget.hpp`) is missing
from the sources; the visibility states of a control, of which the dialog uses
`invisible` for the "visibility toggle for the `files` field". -/
inductive tvisible where
  | visible
  | hidden
  | invisible
  deriving DecidableEq

/-- Modelled from the spec: `twindow` with `find_widget` and `set_visible`
(`gui/widgets/window.hpp`, `gui/auxiliary/find_widget.tpp`) is missing from the
sources; the dialog host is seen through its "set field visibility" operation only,
so a window is the visibility of each of its controls, by widget id. -/
abbrev twindow := Str → tvisible

/-- Modelled from the spec: `tdialog::register_label` (`gui/dialogs/dialog.hpp`) is
missing from the sources; it is the host's "set field text" operation, and a call
`register_label(id, mandatory, text)` is recorded with its three arguments. -/
structure registered_label where
  /-- the widget id -/
  id : Str
  /-- the second argument of `register_label` -/
  mandatory : Bool
  /-- the text given to the widget -/
  text : Str
  deriving DecidableEq

/-- The state of a `twml_error` object: the member `have_files_` and the labels
registered with the base class, in the order of the calls. -/
structure twml_error where
  /-- the member `have_files_` -/
  have_files_ : Bool
  /-- the calls of `register_label`, first call first -/
  labels : List registered_label
  deriving DecidableEq

/-- Lines 163-171: the constructor `twml_error::twml_error`, here `construct`. The
member initializer sets `have_files_` to `!files.empty()`; the body registers the
three labels, the text of `files` being `format_file_list(files)`. -/
def twml_error.construct (env : Collaborators) (summary : Str) (files : List Str)
    (details : Str) : Outcome twml_error :=
  match format_file_list env files with
  | Outcome.ok files_text =>
    Outcome.ok
      { have_files_ := !files.isEmpty
        labels := [registered_label.mk summary_id true summary,
                   registered_label.mk files_id true files_text,
                   registered_label.mk details_id true details] }
  | Outcome.out_of_bounds => Outcome.out_of_bounds
  | Outcome.out_of_fuel => Outcome.out_of_fuel

/-- Lines 173-179: `twml_error::pre_show`; when `have_files_` is false the control
`files` of the window is made invisible, otherwise the window is not touched. -/
def twml_error.pre_show (dialog : twml_error) (window : twindow) : twindow :=
  if !dialog.have_files_ then
    fun id => if id = files_id then tvisible.invisible else window id
  else window

/-- A metadata record without any section. -/
def empty_record : config := config.mk [] []

/-- A metadata record whose `info` section has no `title` attribute, as written by a
client older than the revised `_info.cfg` writer mentioned at lines 107-108. -/
def untitled_record : config := config.mk [] [(info_key, config.mk [] [])]

/-- A metadata record whose `info` section carries the given title. -/
def titled_record (title : Str) : config :=
  config.mk [] [(info_key, config.mk [(title_key, title)] [])]

/-- Example set-up: add-ons root `/a`, no metadata record at all. -/
def plain_env : Collaborators :=
  spec_env false ['/', 'a'] (fun _ => false) (fun _ => empty_record) ['*', ' ']

/-- Example set-up: add-ons root `/a`, every add-on has a record without a title. -/
def untitled_env : Collaborators :=
  spec_env false ['/', 'a'] (fun _ => true) (fun _ => untitled_record) ['*', ' ']

/-- Example set-up: add-ons root `/a`, every add-on has a record titled `My Addon`. -/
def titled_env : Collaborators :=
  spec_env false ['/', 'a'] (fun _ => true)
    (fun _ => titled_record ['M', 'y', ' ', 'A', 'd', 'd', 'o', 'n']) ['*', ' ']

/-- Example set-up: the add-ons root is the root directory `/`, no metadata. -/
def root_env : Collaborators :=
  spec_env false ['/'] (fun _ => false) (fun _ => empty_record) ['*', ' ']

/-- Example set-up for Windows: add-ons root `/a`, no metadata. -/
def windows_env : Collaborators :=
  spec_env true ['/', 'a'] (fun _ => false) (fun _ => empty_record) ['*', ' ']

/-! ## The loop of `strip_trailing_dir_separators` -/

theorem size_index_of_pos (n : Nat) (h0 : 0 < n) (hn : n < SIZE_MOD) :
    (n + (SIZE_MOD - 1)) % SIZE_MOD = n - 1 := by
  unfold SIZE_MOD at *
  omega

theorem size_index_lt (n : Nat) (h0 : 0 < n) : (n + (SIZE_MOD - 1)) % SIZE_MOD < n := by
  unfold SIZE_MOD
  omega

/-- The iteration budget `str.size() + 1` is never exhausted. -/
theorem strip_loop_fuel (win32 : Bool) :
    ∀ (fuel : Nat) (str : Str), str.length < fuel →
      strip_loop win32 fuel str ≠ Outcome.out_of_fuel := by
  intro fuel
  induction fuel with
  | zero => intro str h; omega
  | succ fuel ih =>
    intro str h
    unfold strip_loop
    simp only []
    cases hget : str.get? ((str.length + (SIZE_MOD - 1)) % SIZE_MOD) with
    | none => simp
    | some c =>
      simp only []
      split
      · apply ih
        have hlt := (List.get?_eq_some.mp hget).1
        rw [List.length_take]
        omega
      · simp

/-- A string made only of directory separators (the empty string included) makes the
loop read outside the string. -/
theorem strip_loop_all_separators (win32 : Bool) :
    ∀ (fuel : Nat) (str : Str), str.length < fuel →
      (∀ c ∈ str, is_dir_separator win32 c = true) →
      strip_loop win32 fuel str = Outcome.out_of_bounds := by
  intro fuel
  induction fuel with
  | zero => intro str h; omega
  | succ fuel ih =>
    intro str h hsep
    unfold strip_loop
    simp only []
    cases hget : str.get? ((str.length + (SIZE_MOD - 1)) % SIZE_MOD) with
    | none => rfl
    | some c =>
      simp only []
      have hmem : c ∈ str := List.get?_mem hget
      rw [if_pos (hsep c hmem)]
      apply ih
      · have hlt := (List.get?_eq_some.mp hget).1
        rw [List.length_take]
        omega
      · intro x hx
        exact hsep x (List.mem_of_mem_take hx)

/-- One round of the loop on a string that ends in a separator erases that
separator. -/
theorem strip_loop_snoc_separator (win32 : Bool) (fuel : Nat) (str : Str) (c : Char)
    (hc : is_dir_separator win32 c = true) (hlen : (str ++ [c]).length < SIZE_MOD) :
    strip_loop win32 (fuel + 1) (str ++ [c]) = strip_loop win32 fuel str := by
  have hidx : ((str ++ [c]).length + (SIZE_MOD - 1)) % SIZE_MOD = str.length := by
    rw [size_index_of_pos _ (by simp) hlen]
    simp
  rw [strip_loop]
  simp only [hidx]
  have hget : (str ++ [c]).get? str.length = some c := by simp
  rw [hget]
  simp [hc]

/-- The loop stops, leaving the string as it is, when the last character is not a
separator. -/
theorem strip_loop_snoc_other (win32 : Bool) (fuel : Nat) (str : Str) (c : Char)
    (hc : is_dir_separator win32 c = false) (hlen : (str ++ [c]).length < SIZE_MOD) :
    strip_loop win32 (fuel + 1) (str ++ [c]) = Outcome.ok (str ++ [c]) := by
  have hidx : ((str ++ [c]).length + (SIZE_MOD - 1)) % SIZE_MOD = str.length := by
    rw [size_index_of_pos _ (by simp) hlen]
    simp
  rw [strip_loop]
  simp only [hidx]
  have hget : (str ++ [c]).get? str.length = some c := by simp
  rw [hget]
  simp [hc]

/-- The loop erases a tail of separators and stops at the first character, from the
right, that is not a separator. -/
theorem strip_loop_trailing (win32 : Bool) (r : Str) (c : Char)
    (hc : is_dir_separator win32 c = false) :
    ∀ (tail : Str), (∀ x ∈ tail, is_dir_separator win32 x = true) →
      ∀ (fuel : Nat), tail.length < fuel → ((r ++ [c]) ++ tail).length < SIZE_MOD →
        strip_loop win32 fuel ((r ++ [c]) ++ tail) = Outcome.ok (r ++ [c]) := by
  intro tail
  induction tail using List.reverseRecOn with
  | nil =>
    intro _ fuel hfuel hlen
    cases fuel with
    | zero => simp at hfuel
    | succ fuel =>
      rw [List.append_nil] at hlen ⊢
      exact strip_loop_snoc_other win32 fuel r c hc hlen
  | append_singleton tail a ih =>
    intro hsep fuel hfuel hlen
    have ha : is_dir_separator win32 a = true := hsep a (by simp)
    have htail : ∀ x ∈ tail, is_dir_separator win32 x = true :=
      fun x hx => hsep x (by simp [hx])
    cases fuel with
    | zero => simp at hfuel
    | succ fuel =>
      have hshape : (r ++ [c]) ++ (tail ++ [a]) = ((r ++ [c]) ++ tail) ++ [a] := by simp
      rw [hshape] at hlen ⊢
      rw [strip_loop_snoc_separator win32 fuel _ a ha hlen]
      apply ih htail fuel
      · simp only [List.length_append, List.length_cons, List.length_nil] at hfuel
        omega
      · simp only [List.length_append, List.length_cons, List.length_nil] at hlen ⊢
        omega

/-- A string with a character that is not a separator splits at the last such
character: what follows it is made of separators only. -/
theorem exists_last_non_separator (win32 : Bool) :
    ∀ (s : Str), (∃ x ∈ s, is_dir_separator win32 x = false) →
      ∃ (r : Str) (c : Char) (tail : Str), s = (r ++ [c]) ++ tail ∧
        is_dir_separator win32 c = false ∧
        ∀ x ∈ tail, is_dir_separator win32 x = true := by
  intro s
  induction s using List.reverseRecOn with
  | nil =>
    intro h
    obtain ⟨x, hx, _⟩ := h
    simp at hx
  | append_singleton s a ih =>
    intro h
    cases ha : is_dir_separator win32 a with
    | false => exact ⟨s, a, [], by simp, ha, by simp⟩
    | true =>
      obtain ⟨x, hx, hxsep⟩ := h
      have hxs : x ∈ s := by
        rcases List.mem_append.mp hx with h1 | h1
        · exact h1
        · have hxa : x = a := by simpa using h1
          rw [hxa, ha] at hxsep
          cases hxsep
      obtain ⟨r, c, tail, hs, hc, htail⟩ := ih ⟨x, hxs, hxsep⟩
      refine ⟨r, c, tail ++ [a], ?_, hc, ?_⟩
      · rw [hs]
        simp
      · intro y hy
        rcases List.mem_append.mp hy with h1 | h1
        · exact htail y h1
        · have hya : y = a := by simpa using h1
          rw [hya]
          exact ha

/-- A prefix of `kept ++ tail` longer than `kept` ends in a character of `tail`. -/
theorem last_of_longer_prefix_mem (kept tail p : Str) (hp : p <+: kept ++ tail)
    (hlong : kept.length < p.length) (c : Char) (hlast : p.getLast? = some c) :
    c ∈ tail := by
  obtain ⟨t, ht⟩ := hp
  rcases List.append_eq_append_iff.mp ht with ⟨u, hk, _⟩ | ⟨u, hpu, htail⟩
  · have hle : p.length ≤ kept.length := by
      rw [hk, List.length_append]
      omega
    omega
  · have hu : u ≠ [] := by
      intro h
      rw [hpu, h, List.append_nil] at hlong
      omega
    rw [hpu, List.getLast?_append_of_ne_nil _ hu] at hlast
    have hmem : c ∈ u := List.mem_of_getLast?_eq_some hlast
    rw [htail]
    exact List.mem_append_left t hmem

/-! ## The `BOOST_FOREACH` loop computes the pointwise map -/

/-- With the first `i` entries already rewritten (`done`) and `rest` still to visit,
the in-place loop leaves `done` alone and rewrites `rest` pointwise. -/
theorem foreach_files_append (env : Collaborators) :
    ∀ (rest done : List Str) (n : Nat), rest.length ≤ n →
      foreach_files env n done.length (done ++ rest) =
        match pointwise_entries env rest with
        | Outcome.ok entries => Outcome.ok (done ++ entries)
        | Outcome.out_of_bounds => Outcome.out_of_bounds
        | Outcome.out_of_fuel => Outcome.out_of_fuel := by
  intro rest
  induction rest with
  | nil =>
    intro done n _
    cases n with
    | zero => simp [foreach_files, pointwise_entries]
    | succ n => simp [foreach_files, pointwise_entries]
  | cons file rest ih =>
    intro done n hn
    cases n with
    | zero => simp at hn
    | succ n =>
      have hn2 : rest.length ≤ n := by simpa using hn
      have hget : (done ++ file :: rest).get? done.length = some file := by
        rw [List.get?_eq_getElem?, List.getElem?_append_right (Nat.le_refl _)]
        simp
      rw [foreach_files, hget]
      simp only [pointwise_entries]
      cases hfe : format_entry env file with
      | ok entry =>
        simp only []
        have hset : (done ++ file :: rest).set done.length entry
            = (done ++ [entry]) ++ rest := by
          simp [List.set_append]
        have hlen : done.length + 1 = (done ++ [entry]).length := by simp
        rw [hset, hlen, ih (done ++ [entry]) n hn2]
        cases pointwise_entries env rest <;> simp
      | out_of_bounds => rfl
      | out_of_fuel => rfl

theorem format_entries_eq_pointwise (env : Collaborators) (files : List Str) :
    format_entries env files = pointwise_entries env files := by
  have h := foreach_files_append env files [] files.length (Nat.le_refl _)
  simp only [List.nil_append, List.length_nil] at h
  unfold format_entries
  rw [h]
  cases pointwise_entries env files <;> rfl

theorem pointwise_entries_ok_iff (env : Collaborators) :
    ∀ (files out : List Str), pointwise_entries env files = Outcome.ok out ↔
      List.Forall₂ (fun file entry => format_entry env file = Outcome.ok entry) files out := by
  intro files
  induction files with
  | nil =>
    intro out
    simp only [pointwise_entries]
    constructor
    · intro h
      injection h with h
      subst h
      exact List.Forall₂.nil
    · intro h
      cases h
      rfl
  | cons file rest ih =>
    intro out
    simp only [pointwise_entries]
    constructor
    · intro h
      cases hfe : format_entry env file with
      | ok entry =>
        rw [hfe] at h
        simp only [] at h
        cases hpe : pointwise_entries env rest with
        | ok entries =>
          rw [hpe] at h
          simp only [] at h
          injection h with h
          subst h
          exact List.Forall₂.cons hfe ((ih entries).mp hpe)
        | out_of_bounds => rw [hpe] at h; cases h
        | out_of_fuel => rw [hpe] at h; cases h
      | out_of_bounds => rw [hfe] at h; cases h
      | out_of_fuel => rw [hfe] at h; cases h
    · intro h
      cases h with
      | cons hhead htail =>
        rw [hhead]
        simp only []
        rw [(ih _).mpr htail]

theorem forall2_get (env : Collaborators) :
    ∀ (files out : List Str),
      List.Forall₂ (fun file entry => format_entry env file = Outcome.ok entry) files out →
      ∀ (i : Nat) (hi : i < files.length) (ho : i < out.length),
        format_entry env (files.get ⟨i, hi⟩) = Outcome.ok (out.get ⟨i, ho⟩) := by
  intro files out h
  induction h with
  | nil => intro i hi; simp at hi
  | cons hhead _ ih =>
    intro i hi ho
    cases i with
    | zero => simpa using hhead
    | succ i =>
      simp only [List.length_cons, Nat.add_lt_add_iff_right] at hi ho
      simpa using ih i hi ho

/-! ## Removal of the `.cfg` extension -/

theorem suffix_pos_eq (n : Nat) (h4 : wml_suffix.length < n) (hn : n < SIZE_MOD) :
    (n + (SIZE_MOD - wml_suffix.length)) % SIZE_MOD = n - 4 := by
  have h : wml_suffix.length = 4 := rfl
  rw [h] at h4 ⊢
  unfold SIZE_MOD at *
  omega

/-- The extension is removed exactly from a name `stem ++ ".cfg"` with a non-empty
stem. -/
theorem remove_wml_suffix_stem (stem : Str) (hstem : stem ≠ [])
    (hlen : (stem ++ wml_suffix).length < SIZE_MOD) :
    remove_wml_suffix (stem ++ wml_suffix) = stem := by
  have hpos : 0 < stem.length := List.length_pos.mpr hstem
  have h4 : wml_suffix.length < (stem ++ wml_suffix).length := by
    rw [List.length_append]
    omega
  have hidx : (stem ++ wml_suffix).length - 4 = stem.length := by
    rw [List.length_append]
    have h : wml_suffix.length = 4 := rfl
    omega
  unfold remove_wml_suffix
  rw [if_pos h4]
  simp only [suffix_pos_eq _ h4 hlen, hidx, List.drop_left, List.take_left, if_true]

/-- A name from which the extension is removed ends in it and is longer than it. -/
theorem remove_wml_suffix_changed (f : Str) (hlen : f.length < SIZE_MOD)
    (h : remove_wml_suffix f ≠ f) :
    wml_suffix.length < f.length ∧ f = f.take (f.length - 4) ++ wml_suffix := by
  unfold remove_wml_suffix at h
  by_cases h4 : wml_suffix.length < f.length
  · rw [if_pos h4] at h
    simp only [suffix_pos_eq _ h4 hlen] at h
    by_cases hd : f.drop (f.length - 4) = wml_suffix
    · refine ⟨h4, ?_⟩
      conv_lhs => rw [← List.take_append_drop (f.length - 4) f]
      rw [hd]
    · rw [if_neg hd] at h
      exact absurd rfl h
  · rw [if_neg h4] at h
    exact absurd rfl h

/-- Removing the extension never leaves an empty identifier. -/
theorem remove_wml_suffix_ne_nil (f : Str) (hf : f ≠ []) : remove_wml_suffix f ≠ [] := by
  unfold remove_wml_suffix
  by_cases h4 : wml_suffix.length < f.length
  · rw [if_pos h4]
    simp only []
    split
    · next hd =>
      intro htake
      have hlen4 : 4 < f.length := h4
      rcases List.take_eq_nil_iff.mp htake with h0 | h0
      · rw [h0, List.drop_zero] at hd
        rw [hd] at hlen4
        exact absurd hlen4 (by decide)
      · exact hf h0
    · exact hf
  · rw [if_neg h4]
    exact hf

theorem make_addon_title_ne_nil (id : Str) (h : id ≠ []) : make_addon_title id ≠ [] := by
  unfold make_addon_title
  simpa using h

theorem addon_id_ne_nil (env : Collaborators) (file base : Str) (h : base ≠ []) :
    addon_id env file base ≠ [] := by
  unfold addon_id
  split
  · exact remove_wml_suffix_ne_nil base h
  · exact h

/-- The entry of a path of the add-ons tree with a non-empty `base`. -/
theorem format_entry_in_tree (env : Collaborators) (file base : Str)
    (htree : in_addons_tree env file = true)
    (hbase : derive_base env file = Outcome.ok base) (hne : base ≠ []) :
    format_entry env file = Outcome.ok (display_name env (addon_id env file base)) := by
  unfold format_entry
  simp [htree, hbase, hne]

/-! ## The path utilities modelled from the specification -/

theorem takeWhile_append_stop {α : Type} (p : α → Bool) :
    ∀ (a : List α) (c : α) (b : List α), (∀ x ∈ a, p x = true) → p c = false →
      (a ++ c :: b).takeWhile p = a := by
  intro a
  induction a with
  | nil => intro c b _ hc; simp [List.takeWhile, hc]
  | cons x a ih =>
    intro c b ha hc
    have hx : p x = true := ha x (List.mem_cons_self x a)
    have hrest : ∀ y ∈ a, p y = true := fun y hy => ha y (List.mem_cons_of_mem x hy)
    simp [List.takeWhile, hx, ih c b hrest hc]

theorem dropWhile_append_stop {α : Type} (p : α → Bool) :
    ∀ (a : List α) (c : α) (b : List α), (∀ x ∈ a, p x = true) → p c = false →
      (a ++ c :: b).dropWhile p = c :: b := by
  intro a
  induction a with
  | nil => intro c b _ hc; simp [List.dropWhile, hc]
  | cons x a ih =>
    intro c b ha hc
    have hx : p x = true := ha x (List.mem_cons_self x a)
    have hrest : ∀ y ∈ a, p y = true := fun y hy => ha y (List.mem_cons_of_mem x hy)
    simp [List.dropWhile, hx, ih c b hrest hc]

theorem slash_is_dir_separator (win32 : Bool) : is_dir_separator win32 '/' = true := by
  cases win32 <;> rfl

/-- The leaf name of `dir/leaf` is `leaf` when `leaf` has no separator. -/
theorem file_name_append (win32 : Bool) (dir leaf : Str)
    (hleaf : ∀ c ∈ leaf, is_dir_separator win32 c = false) :
    file_name win32 (dir ++ '/' :: leaf) = leaf := by
  unfold file_name
  have hrev : (dir ++ '/' :: leaf).reverse = leaf.reverse ++ '/' :: dir.reverse := by simp
  rw [hrev, takeWhile_append_stop]
  · simp
  · intro x hx
    simp [hleaf x (List.mem_reverse.mp hx)]
  · simp [slash_is_dir_separator]

/-- The parent directory of `dir/leaf` is `dir/` when `leaf` has no separator. -/
theorem directory_name_append (win32 : Bool) (dir leaf : Str)
    (hleaf : ∀ c ∈ leaf, is_dir_separator win32 c = false) :
    directory_name win32 (dir ++ '/' :: leaf) = dir ++ ['/'] := by
  unfold directory_name
  have hrev : (dir ++ '/' :: leaf).reverse = leaf.reverse ++ '/' :: dir.reverse := by simp
  rw [hrev, dropWhile_append_stop]
  · simp
  · intro x hx
    simp [hleaf x (List.mem_reverse.mp hx)]
  · simp [slash_is_dir_separator]

/-- Characters that are not separators extend the current component. -/
theorem foldl_norm_step_component (win32 : Bool) :
    ∀ (comp : Str) (stack : List Str) (cur : Str),
      (∀ c ∈ comp, is_dir_separator win32 c = false) →
      comp.foldl (norm_step win32) (stack, cur) = (stack, cur ++ comp) := by
  intro comp
  induction comp with
  | nil => intro stack cur _; simp
  | cons c comp ih =>
    intro stack cur h
    have hc : is_dir_separator win32 c = false := h c (List.mem_cons_self c comp)
    have hrest : ∀ x ∈ comp, is_dir_separator win32 x = false :=
      fun x hx => h x (List.mem_cons_of_mem c hx)
    rw [List.foldl_cons, norm_step]
    simp only [hc]
    rw [if_neg (by simp), ih stack (cur ++ [c]) hrest]
    simp

/-- The components of `dir/` are those of `dir`. -/
theorem norm_components_trailing_slash (win32 : Bool) (dir : Str) :
    norm_components win32 (dir ++ ['/']) = norm_components win32 dir := by
  unfold norm_components
  simp only [List.foldl_append, List.foldl_cons, List.foldl_nil, norm_step,
    slash_is_dir_separator, if_true]
  simp [norm_push]

/-- The components of `dir/name//..` are those of `dir`, for a name that is a proper
component: `..` takes back the component `name`. -/
theorem norm_components_up_one_level (win32 : Bool) (dir name : Str)
    (hname : name ≠ []) (hsep : ∀ c ∈ name, is_dir_separator win32 c = false)
    (hdot : name ≠ ['.']) (hdotdot : name ≠ ['.', '.']) :
    norm_components win32 (((dir ++ '/' :: name) ++ ['/']) ++ up_one_level)
      = norm_components win32 dir := by
  have hpush : ∀ stack : List Str, norm_push stack name = name :: stack := by
    intro stack
    simp [norm_push, hname, hdot, hdotdot]
  have hdotc : is_dir_separator win32 '.' = false := by
    cases win32 <;> rfl
  unfold norm_components up_one_level
  simp only [List.foldl_append, List.foldl_cons, List.foldl_nil]
  generalize List.foldl (norm_step win32) ([], []) dir = st
  obtain ⟨stack, cur⟩ := st
  have e1 : norm_step win32 (stack, cur) '/' = (norm_push stack cur, []) := by
    simp [norm_step, slash_is_dir_separator]
  rw [e1, foldl_norm_step_component win32 name _ _ hsep]
  simp only [List.nil_append]
  generalize norm_push stack cur = kept
  have e2 : norm_step win32 (kept, name) '/' = (name :: kept, []) := by
    simp [norm_step, slash_is_dir_separator, hpush]
  have e3 : norm_step win32 (name :: kept, []) '/' = (name :: kept, []) := by
    simp [norm_step, slash_is_dir_separator, norm_push]
  have e4 : norm_step win32 (norm_step win32 (name :: kept, []) '.') '.'
      = (name :: kept, ['.', '.']) := by
    simp [norm_step, hdotc]
  rw [e2, e3, e4]
  simp [norm_push]

/-- The components of `dir//..` are those of `dir/..`. -/
theorem norm_components_slash_up (win32 : Bool) (dir : Str) :
    norm_components win32 ((dir ++ ['/']) ++ up_one_level)
      = norm_components win32 (dir ++ up_one_level) := by
  unfold norm_components up_one_level
  simp only [List.foldl_append, List.foldl_cons, List.foldl_nil]
  generalize List.foldl (norm_step win32) ([], []) dir = st
  obtain ⟨stack, cur⟩ := st
  have e1 : norm_step win32 (stack, cur) '/' = (norm_push stack cur, []) := by
    simp [norm_step, slash_is_dir_separator]
  rw [e1]
  generalize norm_push stack cur = kept
  have e2 : norm_step win32 (kept, []) '/' = (kept, []) := by
    simp [norm_step, slash_is_dir_separator, norm_push]
  rw [e2]

/-- The components of `dir/name/` are those of `dir` followed by `name`, for a name
that is a proper component. -/
theorem norm_components_child (win32 : Bool) (dir name : Str)
    (hname : name ≠ []) (hsep : ∀ c ∈ name, is_dir_separator win32 c = false)
    (hdot : name ≠ ['.']) (hdotdot : name ≠ ['.', '.']) :
    norm_components win32 ((dir ++ '/' :: name) ++ ['/'])
      = norm_components win32 dir ++ [name] := by
  have hpush : ∀ stack : List Str, norm_push stack name = name :: stack := by
    intro stack
    simp [norm_push, hname, hdot, hdotdot]
  unfold norm_components
  simp only [List.foldl_append, List.foldl_cons, List.foldl_nil]
  generalize List.foldl (norm_step win32) ([], []) dir = st
  obtain ⟨stack, cur⟩ := st
  have e1 : norm_step win32 (stack, cur) '/' = (norm_push stack cur, []) := by
    simp [norm_step, slash_is_dir_separator]
  rw [e1, foldl_norm_step_component win32 name _ _ hsep]
  simp only [List.nil_append]
  generalize norm_push stack cur = kept
  have e2 : norm_step win32 (kept, name) '/' = (name :: kept, []) := by
    simp [norm_step, slash_is_dir_separator, hpush]
  rw [e2]
  simp [norm_push]

/-- A path with one more component than another has another normal form. -/
theorem normalize_path_ne_of_child (win32 : Bool) (p q name : Str) (hname : name ≠ [])
    (h : norm_components win32 p = norm_components win32 q ++ [name]) :
    normalize_path win32 p ≠ normalize_path win32 q := by
  unfold normalize_path
  rw [h]
  cases norm_components win32 q with
  | nil =>
    simp only [List.nil_append, List.map_cons, List.map_nil, List.flatten_cons,
      List.flatten_nil, List.append_nil]
    intro heq
    injection heq with _ htail
    exact hname htail
  | cons comp comps =>
    intro heq
    have hlen := congrArg List.length heq
    simp at hlen

theorem normalize_path_trailing_slash (win32 : Bool) (dir : Str) :
    normalize_path win32 (dir ++ ['/']) = normalize_path win32 dir := by
  unfold normalize_path
  rw [norm_components_trailing_slash]

theorem normalize_path_up_one_level (win32 : Bool) (dir name : Str)
    (hname : name ≠ []) (hsep : ∀ c ∈ name, is_dir_separator win32 c = false)
    (hdot : name ≠ ['.']) (hdotdot : name ≠ ['.', '.']) :
    normalize_path win32 (((dir ++ '/' :: name) ++ ['/']) ++ up_one_level)
      = normalize_path win32 dir := by
  unfold normalize_path
  rw [norm_components_up_one_level win32 dir name hname hsep hdot hdotdot]

/-- Stripping the trailing separator of `dir/name/` gives `dir/name`. -/
theorem strip_dir_of_component (win32 : Bool) (dir name : Str)
    (hname : name ≠ []) (hsep : ∀ c ∈ name, is_dir_separator win32 c = false)
    (hlen : ((dir ++ '/' :: name) ++ ['/']).length < SIZE_MOD) :
    strip_trailing_dir_separators win32 ((dir ++ '/' :: name) ++ ['/'])
      = Outcome.ok (dir ++ '/' :: name) := by
  obtain ⟨init, last, hlast⟩ : ∃ init last, name = init ++ [last] :=
    ⟨name.dropLast, name.getLast hname, (List.dropLast_append_getLast hname).symm⟩
  have hlastsep : is_dir_separator win32 last = false := hsep last (by simp [hlast])
  have hshape : dir ++ '/' :: name = (dir ++ '/' :: init) ++ [last] := by simp [hlast]
  have hlen2 : ((dir ++ '/' :: init) ++ [last]).length < SIZE_MOD := by
    rw [← hshape]
    rw [List.length_append] at hlen
    omega
  unfold strip_trailing_dir_separators
  rw [strip_loop_snoc_separator win32 _ _ '/' (slash_is_dir_separator win32) hlen]
  have hfuel : ((dir ++ '/' :: name) ++ ['/']).length
      = ((dir ++ '/' :: init).length + 1) + 1 := by
    rw [hshape]
    simp only [List.length_append, List.length_cons, List.length_nil]
  rw [hshape] at hfuel ⊢
  rw [hfuel, strip_loop_snoc_other win32 _ _ last hlastsep hlen2]

theorem main_cfg_no_separator (win32 : Bool) :
    ∀ c ∈ main_cfg, is_dir_separator win32 c = false := by
  cases win32 <;> decide

theorem wml_suffix_no_separator (win32 : Bool) :
    ∀ c ∈ wml_suffix, is_dir_separator win32 c = false := by
  cases win32 <;> decide

/-- A path that fails the test of line 69 is left as it is. -/
theorem format_entry_outside_tree (env : Collaborators) (file : Str)
    (h : in_addons_tree env file = false) : format_entry env file = Outcome.ok file := by
  unfold format_entry
  simp [h]

/-- A path of the add-ons tree whose `base` is empty is left as it is (lines 84-88). -/
theorem format_entry_empty_base (env : Collaborators) (file : Str)
    (htree : in_addons_tree env file = true)
    (hbase : derive_base env file = Outcome.ok []) :
    format_entry env file = Outcome.ok file := by
  unfold format_entry
  simp [htree, hbase]

/-! ## Claims -/

/-- C1: the sequence of entries built before the final reduction is the pointwise map
of the per-path function `format_entry` over the input. The loop yields the sequence
`out` exactly when `out` is related to the input entry by entry through
`format_entry`; such a sequence has the length of the input and its `i`-th entry is
`format_entry` of the `i`-th path, so nothing is dropped, duplicated or moved. -/
theorem C1_entries_are_pointwise_map (env : Collaborators) (files : List Str) :
    (∀ out : List Str, format_entries env files = Outcome.ok out ↔
      List.Forall₂ (fun file entry => format_entry env file = Outcome.ok entry) files out) ∧
    (∀ out : List Str, format_entries env files = Outcome.ok out →
      out.length = files.length ∧
      ∀ (i : Nat) (hi : i < files.length) (ho : i < out.length),
        format_entry env (files.get ⟨i, hi⟩) = Outcome.ok (out.get ⟨i, ho⟩)) := by
  have hiff : ∀ out : List Str, format_entries env files = Outcome.ok out ↔
      List.Forall₂ (fun file entry => format_entry env file = Outcome.ok entry) files out := by
    intro out
    rw [format_entries_eq_pointwise]
    exact pointwise_entries_ok_iff env files out
  refine ⟨hiff, ?_⟩
  intro out hout
  have hrel := (hiff out).mp hout
  exact ⟨hrel.length_eq.symm, forall2_get env files out hrel⟩

/-- Witness of C1: three paths under the add-ons root `/a`, the second outside it. -/
theorem C1_entries_are_pointwise_map_witness :
    [['b', ' ', 'c'], ['/', 'x', '/', 'y'], ['d']].length
      = [['/', 'a', '/', 'b', '_', 'c', '.', 'c', 'f', 'g'], ['/', 'x', '/', 'y'],
          ['/', 'a', '/', 'd', '/', '_', 'm', 'a', 'i', 'n', '.', 'c', 'f', 'g']].length ∧
    ∀ (i : Nat)
      (hi : i < [['/', 'a', '/', 'b', '_', 'c', '.', 'c', 'f', 'g'], ['/', 'x', '/', 'y'],
          ['/', 'a', '/', 'd', '/', '_', 'm', 'a', 'i', 'n', '.', 'c', 'f', 'g']].length)
      (ho : i < [['b', ' ', 'c'], ['/', 'x', '/', 'y'], ['d']].length),
      format_entry plain_env
          ([['/', 'a', '/', 'b', '_', 'c', '.', 'c', 'f', 'g'], ['/', 'x', '/', 'y'],
            ['/', 'a', '/', 'd', '/', '_', 'm', 'a', 'i', 'n', '.', 'c', 'f', 'g']].get ⟨i, hi⟩)
        = Outcome.ok ([['b', ' ', 'c'], ['/', 'x', '/', 'y'], ['d']].get ⟨i, ho⟩) :=
  (C1_entries_are_pointwise_map plain_env
    [['/', 'a', '/', 'b', '_', 'c', '.', 'c', 'f', 'g'], ['/', 'x', '/', 'y'],
      ['/', 'a', '/', 'd', '/', '_', 'm', 'a', 'i', 'n', '.', 'c', 'f', 'g']]).2
    [['b', ' ', 'c'], ['/', 'x', '/', 'y'], ['d']] (by decide)

/-- C2: a path whose candidate containing directory (`parent_path`: the parent
directory, followed by `/..` when the leaf name is `_main.cfg`) normalizes to
something else than the normalized add-ons root is left as it is, whatever the
path utilities and the metadata store are. -/
theorem C2_outside_addons_tree_verbatim (env : Collaborators) (file : Str)
    (h : env.normalize_path (parent_path env file) ≠ env.normalize_path env.addons_path) :
    format_entry env file = Outcome.ok file := by
  unfold format_entry in_addons_tree
  simp [h]

/-- Witness of C2: `/x/y.cfg` with the add-ons root `/a` and a store that has a titled
record for every identifier. -/
theorem C2_outside_addons_tree_verbatim_witness :
    titled_env.normalize_path (parent_path titled_env ['/', 'x', '/', 'y', '.', 'c', 'f', 'g'])
      ≠ titled_env.normalize_path titled_env.addons_path ∧
    format_entry titled_env ['/', 'x', '/', 'y', '.', 'c', 'f', 'g']
      = Outcome.ok ['/', 'x', '/', 'y', '.', 'c', 'f', 'g'] :=
  ⟨by decide, C2_outside_addons_tree_verbatim titled_env _ (by decide)⟩

/-- C3, what the code does: for a path of the add-ons tree with the non-empty base
identifier `base`, the entry is the synthetic title when there is no record or the
record has no `info` section, and it is the `title` attribute of the `info` section
whenever that section exists. So a record whose `info` section has an empty or
missing title gives the empty entry, where the claim asks for the synthetic title
(which is not empty). -/
theorem C3_title_of_info_section_used_even_when_empty (env : Collaborators)
    (file base : Str) (htree : in_addons_tree env file = true)
    (hbase : derive_base env file = Outcome.ok base) (hne : base ≠ []) :
    (env.have_addon_install_info (addon_id env file base) = false →
      format_entry env file = Outcome.ok (make_addon_title (addon_id env file base))) ∧
    (env.have_addon_install_info (addon_id env file base) = true →
      (env.get_addon_install_info (addon_id env file base)).child info_key = none →
      format_entry env file = Outcome.ok (make_addon_title (addon_id env file base))) ∧
    (∀ info_cfg : config,
      env.have_addon_install_info (addon_id env file base) = true →
      (env.get_addon_install_info (addon_id env file base)).child info_key = some info_cfg →
      format_entry env file = Outcome.ok (info_cfg.attr_str title_key)) ∧
    (∀ info_cfg : config,
      env.have_addon_install_info (addon_id env file base) = true →
      (env.get_addon_install_info (addon_id env file base)).child info_key = some info_cfg →
      info_cfg.attr_str title_key = [] →
      format_entry env file = Outcome.ok [] ∧
      make_addon_title (addon_id env file base) ≠ []) := by
  have hentry := format_entry_in_tree env file base htree hbase hne
  refine ⟨?_, ?_, ?_, ?_⟩
  · intro hno
    rw [hentry]
    simp [display_name, hno]
  · intro hyes hchild
    rw [hentry]
    simp [display_name, hyes, hchild]
  · intro info_cfg hyes hchild
    rw [hentry]
    simp [display_name, hyes, hchild]
  · intro info_cfg hyes hchild htitle
    refine ⟨?_, make_addon_title_ne_nil _ (addon_id_ne_nil env file base hne)⟩
    rw [hentry]
    simp [display_name, hyes, hchild, htitle]

/-- Witness of C3, the failing input: `/a/foo.cfg` under the add-ons root `/a`, the
record of `foo` having an `info` section without title; the entry is the empty
string, not `foo`. -/
theorem C3_title_of_info_section_used_even_when_empty_witness :
    format_entry untitled_env ['/', 'a', '/', 'f', 'o', 'o', '.', 'c', 'f', 'g']
      = Outcome.ok [] ∧
    make_addon_title (addon_id untitled_env ['/', 'a', '/', 'f', 'o', 'o', '.', 'c', 'f', 'g']
      ['f', 'o', 'o', '.', 'c', 'f', 'g']) ≠ [] :=
  (C3_title_of_info_section_used_even_when_empty untitled_env
    ['/', 'a', '/', 'f', 'o', 'o', '.', 'c', 'f', 'g'] ['f', 'o', 'o', '.', 'c', 'f', 'g']
    (by decide) (by decide) (by decide)).2.2.2 (config.mk [] []) (by decide) rfl rfl

/-- C4, at the failing input: the single non-empty path `/a/foo.cfg`, with a record
for `foo` whose `info` section has no title, gives a sequence whose only entry is the
empty string, and `format_file_list` returns the empty string. -/
theorem C4_empty_entry_for_untitled_record :
    ['/', 'a', '/', 'f', 'o', 'o', '.', 'c', 'f', 'g'] ≠ ([] : Str) ∧
    format_entries untitled_env [['/', 'a', '/', 'f', 'o', 'o', '.', 'c', 'f', 'g']]
      = Outcome.ok [[]] ∧
    format_file_list untitled_env [['/', 'a', '/', 'f', 'o', 'o', '.', 'c', 'f', 'g']]
      = Outcome.ok [] := by
  decide

/-- C5: the final reduction. For one path the result is its entry, bare (and
`format_file_list` has a value exactly when the entry has one); for two or more paths
the result is `utils::bullet_list` applied to the sequence of all entries in input
order. -/
theorem C5_final_reduction (env : Collaborators) :
    (∀ file : Str, format_file_list env [file] = format_entry env file) ∧
    (∀ files out : List Str, 2 ≤ files.length →
      List.Forall₂ (fun file entry => format_entry env file = Outcome.ok entry) files out →
      format_file_list env files = Outcome.ok (env.bullet_list out)) := by
  constructor
  · intro file
    simp only [format_file_list, List.isEmpty_cons, format_entries_eq_pointwise,
      pointwise_entries]
    cases format_entry env file <;> simp [reduce_entries]
  · intro files out hlen hrel
    have hout : format_entries env files = Outcome.ok out := by
      rw [format_entries_eq_pointwise]
      exact (pointwise_entries_ok_iff env files out).mpr hrel
    have hne : files.isEmpty = false := by
      cases files with
      | nil => simp at hlen
      | cons _ _ => rfl
    have hlen2 : 2 ≤ out.length := by
      rw [← hrel.length_eq]
      exact hlen
    simp only [format_file_list, hne, hout]
    match out, hlen2 with
    | _ :: _ :: _, _ => simp [reduce_entries]

/-- Witness of C5: two paths give the two bulleted entries, in input order. -/
theorem C5_final_reduction_witness :
    format_file_list plain_env
        [['/', 'a', '/', 'b', '_', 'c', '.', 'c', 'f', 'g'], ['/', 'x', '/', 'y']]
      = Outcome.ok (plain_env.bullet_list [['b', ' ', 'c'], ['/', 'x', '/', 'y']]) :=
  (C5_final_reduction plain_env).2
    [['/', 'a', '/', 'b', '_', 'c', '.', 'c', 'f', 'g'], ['/', 'x', '/', 'y']]
    [['b', ' ', 'c'], ['/', 'x', '/', 'y']] (by decide)
    (List.Forall₂.cons (by decide) (List.Forall₂.cons (by decide) List.Forall₂.nil))

/-- C6: for the empty input list `format_file_list` returns the empty string, whatever
the path utilities, the add-ons root and the metadata store are. -/
theorem C6_empty_input (env : Collaborators) :
    format_file_list env [] = Outcome.ok [] := by
  rfl

/-- C7, at the failing inputs: on the empty string and on strings made only of
directory separators `strip_trailing_dir_separators` reads `str[str.size() - 1]` with the
index `2 ^ 64 - 1`, outside the string; and `format_file_list` reaches that read for
the path `/_main.cfg` when the add-ons root is `/`. -/
theorem C7_strip_reads_out_of_bounds :
    strip_trailing_dir_separators false [] = Outcome.out_of_bounds ∧
    strip_trailing_dir_separators true [] = Outcome.out_of_bounds ∧
    strip_trailing_dir_separators false ['/'] = Outcome.out_of_bounds ∧
    strip_trailing_dir_separators false ['/', '/', '/'] = Outcome.out_of_bounds ∧
    strip_trailing_dir_separators true ['/', Char.ofNat 92] = Outcome.out_of_bounds ∧
    format_file_list root_env [['/', '_', 'm', 'a', 'i', 'n', '.', 'c', 'f', 'g']]
      = Outcome.out_of_bounds := by
  decide

/-- C8, a counterexample: the directory name `..` is non-empty and has no separator,
and there is no metadata, yet `/a/../_main.cfg` is not recognised as part of the
add-ons tree of the root `/a` (its candidate directory `/a/..//..` normalizes to `/`);
the entry is the path itself and not `..`. -/
theorem C8_counterexample_dot_dot :
    (['.', '.'] : Str) ≠ [] ∧
    (∀ c ∈ (['.', '.'] : Str), is_dir_separator false c = false) ∧
    plain_env.have_addon_install_info ['.', '.'] = false ∧
    in_addons_tree plain_env (main_cfg_path ['/', 'a'] ['.', '.']) = false ∧
    format_entry plain_env (main_cfg_path ['/', 'a'] ['.', '.'])
      = Outcome.ok (main_cfg_path ['/', 'a'] ['.', '.']) ∧
    format_entry plain_env (main_cfg_path ['/', 'a'] ['.', '.'])
      ≠ Outcome.ok (make_addon_title ['.', '.']) := by
  decide

/-- C8, amended: with the path utilities of the specification, for every add-on
directory name `d` that is non-empty, has no directory separator and is neither `.`
nor `..`, the path `<root>/d/_main.cfg` is a main configuration file, is recognised as
part of the add-ons tree, its base identifier is exactly `d` (no extension is removed
from it), and without a metadata record for `d` its entry is `d` with underscores
replaced by spaces. (`hlen`: a `std::string` is shorter than `2 ^ 64` characters.) -/
theorem C8_main_cfg_of_addon_directory (win32 : Bool) (root d : Str)
    (have_info : Str → Bool) (get_info : Str → config) (bullet : Str)
    (hd : d ≠ []) (hsep : ∀ c ∈ d, is_dir_separator win32 c = false)
    (hdot : d ≠ ['.']) (hdotdot : d ≠ ['.', '.'])
    (hlen : (main_cfg_path root d).length < SIZE_MOD) :
    is_main_cfg (spec_env win32 root have_info get_info bullet) (main_cfg_path root d)
      = true ∧
    in_addons_tree (spec_env win32 root have_info get_info bullet) (main_cfg_path root d)
      = true ∧
    derive_base (spec_env win32 root have_info get_info bullet) (main_cfg_path root d)
      = Outcome.ok d ∧
    addon_id (spec_env win32 root have_info get_info bullet) (main_cfg_path root d) d
      = d ∧
    (have_info d = false →
      format_entry (spec_env win32 root have_info get_info bullet) (main_cfg_path root d)
        = Outcome.ok (make_addon_title d)) := by
  have hfile : file_name win32 (main_cfg_path root d) = main_cfg :=
    file_name_append win32 (root ++ '/' :: d) main_cfg (main_cfg_no_separator win32)
  have hdir : directory_name win32 (main_cfg_path root d) = (root ++ '/' :: d) ++ ['/'] :=
    directory_name_append win32 (root ++ '/' :: d) main_cfg (main_cfg_no_separator win32)
  have hlen2 : ((root ++ '/' :: d) ++ ['/']).length < SIZE_MOD := by
    have h : (main_cfg_path root d).length
        = ((root ++ '/' :: d) ++ ['/']).length + main_cfg.length := by
      simp only [main_cfg_path, List.length_append, List.length_cons, List.length_nil]
      omega
    omega
  have hmain : is_main_cfg (spec_env win32 root have_info get_info bullet)
      (main_cfg_path root d) = true := by
    simp [is_main_cfg, spec_env, hfile]
  have htree : in_addons_tree (spec_env win32 root have_info get_info bullet)
      (main_cfg_path root d) = true := by
    simp only [in_addons_tree, parent_path, hmain, if_true, decide_eq_true_eq]
    simp only [spec_env, hdir]
    exact normalize_path_up_one_level win32 root d hd hsep hdot hdotdot
  have hbase : derive_base (spec_env win32 root have_info get_info bullet)
      (main_cfg_path root d) = Outcome.ok d := by
    simp only [derive_base, hmain, if_true]
    simp only [spec_env, hdir, strip_dir_of_component win32 root d hd hsep hlen2,
      file_name_append win32 root d hsep]
  have hid : addon_id (spec_env win32 root have_info get_info bullet)
      (main_cfg_path root d) d = d := by
    simp [addon_id, hmain]
  refine ⟨hmain, htree, hbase, hid, ?_⟩
  intro hno
  rw [format_entry_in_tree _ _ d htree hbase hd, hid]
  simp [display_name, spec_env, hno]

/-- Witness of C8: `/a/my_addon/_main.cfg` under the add-ons root `/a`, without
metadata, gives `my addon`. -/
theorem C8_main_cfg_of_addon_directory_witness :
    format_entry plain_env (main_cfg_path ['/', 'a'] ['m', 'y', '_', 'a', 'd', 'd', 'o', 'n'])
      = Outcome.ok ['m', 'y', ' ', 'a', 'd', 'd', 'o', 'n'] :=
  (C8_main_cfg_of_addon_directory false ['/', 'a'] ['m', 'y', '_', 'a', 'd', 'd', 'o', 'n']
    (fun _ => false) (fun _ => empty_record) ['*', ' ']
    (by decide) (by decide) (by decide) (by decide) (by decide)).2.2.2.2 rfl

/-- C9: with the path utilities of the specification, for every non-empty name `n`
without directory separator such that `n.cfg` is not `_main.cfg`, the file
`<root>/n.cfg` is not a main configuration file, is recognised as part of the add-ons
tree, its leaf name is `n.cfg` and the metadata store is queried with `n`; when the
store has a record for `n` whose `info` section has the title `t`, the entry is `t`.
(`hlen`: a `std::string` is shorter than `2 ^ 64` characters.) -/
theorem C9_regular_file_in_addons_root (win32 : Bool) (root n : Str)
    (have_info : Str → Bool) (get_info : Str → config) (bullet : Str)
    (hn : n ≠ []) (hsep : ∀ c ∈ n, is_dir_separator win32 c = false)
    (hmain : n ++ wml_suffix ≠ main_cfg)
    (hlen : (n ++ wml_suffix).length < SIZE_MOD) :
    is_main_cfg (spec_env win32 root have_info get_info bullet) (addon_file_path root n)
      = false ∧
    in_addons_tree (spec_env win32 root have_info get_info bullet) (addon_file_path root n)
      = true ∧
    derive_base (spec_env win32 root have_info get_info bullet) (addon_file_path root n)
      = Outcome.ok (n ++ wml_suffix) ∧
    addon_id (spec_env win32 root have_info get_info bullet) (addon_file_path root n)
      (n ++ wml_suffix) = n ∧
    (∀ (info_cfg : config) (t : Str), have_info n = true →
      (get_info n).child info_key = some info_cfg →
      info_cfg.attr_str title_key = t → t ≠ [] →
      format_entry (spec_env win32 root have_info get_info bullet) (addon_file_path root n)
        = Outcome.ok t) := by
  have hleaf : ∀ c ∈ n ++ wml_suffix, is_dir_separator win32 c = false := by
    intro c hc
    rcases List.mem_append.mp hc with h | h
    · exact hsep c h
    · exact wml_suffix_no_separator win32 c h
  have hfile : file_name win32 (addon_file_path root n) = n ++ wml_suffix :=
    file_name_append win32 root (n ++ wml_suffix) hleaf
  have hdir : directory_name win32 (addon_file_path root n) = root ++ ['/'] :=
    directory_name_append win32 root (n ++ wml_suffix) hleaf
  have hnotmain : is_main_cfg (spec_env win32 root have_info get_info bullet)
      (addon_file_path root n) = false := by
    simp [is_main_cfg, spec_env, hfile, hmain]
  have htree : in_addons_tree (spec_env win32 root have_info get_info bullet)
      (addon_file_path root n) = true := by
    simp only [in_addons_tree, parent_path, hnotmain, decide_eq_true_eq]
    simp only [spec_env, hdir]
    exact normalize_path_trailing_slash win32 root
  have hbase : derive_base (spec_env win32 root have_info get_info bullet)
      (addon_file_path root n) = Outcome.ok (n ++ wml_suffix) := by
    simp only [derive_base, hnotmain]
    simp [spec_env, hfile]
  have hid : addon_id (spec_env win32 root have_info get_info bullet)
      (addon_file_path root n) (n ++ wml_suffix) = n := by
    simp only [addon_id, hnotmain]
    simpa using remove_wml_suffix_stem n hn hlen
  have hbne : n ++ wml_suffix ≠ [] := by simp [hn]
  refine ⟨hnotmain, htree, hbase, hid, ?_⟩
  intro info_cfg t hyes hchild htitle _
  rw [format_entry_in_tree _ _ (n ++ wml_suffix) htree hbase hbne, hid]
  simp [display_name, spec_env, hyes, hchild, htitle]

/-- Witness of C9: `/a/my_addon.cfg` under the add-ons root `/a`, with a record titled
`My Addon`, gives `My Addon`. -/
theorem C9_regular_file_in_addons_root_witness :
    format_entry titled_env (addon_file_path ['/', 'a'] ['m', 'y', '_', 'a', 'd', 'd', 'o', 'n'])
      = Outcome.ok ['M', 'y', ' ', 'A', 'd', 'd', 'o', 'n'] :=
  (C9_regular_file_in_addons_root false ['/', 'a'] ['m', 'y', '_', 'a', 'd', 'd', 'o', 'n']
    (fun _ => true) (fun _ => titled_record ['M', 'y', ' ', 'A', 'd', 'd', 'o', 'n'])
    ['*', ' '] (by decide) (by decide) (by decide) (by decide)).2.2.2.2
    (config.mk [(title_key, ['M', 'y', ' ', 'A', 'd', 'd', 'o', 'n'])] [])
    ['M', 'y', ' ', 'A', 'd', 'd', 'o', 'n'] rfl rfl rfl (by decide)

/-- C10: removal of the extension from the leaf name `f` of a non-main file. When `f`
ends in `.cfg` and is longer than `.cfg`, the identifier is `f` without its last four
characters; otherwise it is `f` itself; `a.cfg.cfg` gives `a.cfg` and `.cfg` stays
`.cfg`; the identifier of a non-empty leaf name is not empty; and this is the
identifier that a non-main file queries the store with.
(`hlen`: a `std::string` is shorter than `2 ^ 64` characters.) -/
theorem C10_suffix_stripping (f : Str) (hlen : f.length < SIZE_MOD) :
    (wml_suffix <:+ f → wml_suffix.length < f.length →
      remove_wml_suffix f = f.take (f.length - 4) ∧ remove_wml_suffix f ++ wml_suffix = f) ∧
    (¬ (wml_suffix <:+ f ∧ wml_suffix.length < f.length) → remove_wml_suffix f = f) ∧
    remove_wml_suffix ['a', '.', 'c', 'f', 'g', '.', 'c', 'f', 'g']
      = ['a', '.', 'c', 'f', 'g'] ∧
    remove_wml_suffix ['.', 'c', 'f', 'g'] = ['.', 'c', 'f', 'g'] ∧
    (f ≠ [] → remove_wml_suffix f ≠ []) ∧
    (∀ (env : Collaborators) (file : Str), is_main_cfg env file = false →
      addon_id env file f = remove_wml_suffix f) := by
  refine ⟨?_, ?_, by decide, by decide, remove_wml_suffix_ne_nil f, ?_⟩
  · intro hsuf h4
    obtain ⟨stem, hstem⟩ := hsuf
    subst hstem
    have hne : stem ≠ [] := by
      intro h
      subst h
      simp at h4
    have hrem := remove_wml_suffix_stem stem hne hlen
    have hidx : (stem ++ wml_suffix).length - 4 = stem.length := by
      rw [List.length_append]
      have h : wml_suffix.length = 4 := rfl
      omega
    rw [hrem, hidx, List.take_left]
    exact ⟨rfl, rfl⟩
  · intro hnot
    by_contra hchanged
    obtain ⟨h4, hshape⟩ := remove_wml_suffix_changed f hlen hchanged
    exact hnot ⟨⟨_, hshape.symm⟩, h4⟩
  · intro env file hmain
    simp [addon_id, hmain]

/-- Witness of C10: the leaf name `my_addon.cfg` gives `my_addon`. -/
theorem C10_suffix_stripping_witness :
    remove_wml_suffix ['m', 'y', '_', 'a', 'd', 'd', 'o', 'n', '.', 'c', 'f', 'g']
      = ['m', 'y', '_', 'a', 'd', 'd', 'o', 'n'] ∧
    remove_wml_suffix ['m', 'y', '_', 'a', 'd', 'd', 'o', 'n', '.', 'c', 'f', 'g']
      ++ wml_suffix = ['m', 'y', '_', 'a', 'd', 'd', 'o', 'n', '.', 'c', 'f', 'g'] :=
  (C10_suffix_stripping ['m', 'y', '_', 'a', 'd', 'd', 'o', 'n', '.', 'c', 'f', 'g']
    (by decide)).1 ⟨['m', 'y', '_', 'a', 'd', 'd', 'o', 'n'], rfl⟩ (by decide)

/-- C11: a path that lies in the add-ons tree and whose derived base identifier is
empty keeps its original value as entry, and the metadata store is not consulted:
the entry is the same whatever `have_addon_install_info` and
`get_addon_install_info` are replaced with. -/
theorem C11_empty_base_passes_through (env : Collaborators) (file : Str)
    (htree : in_addons_tree env file = true)
    (hbase : derive_base env file = Outcome.ok []) :
    format_entry env file = Outcome.ok file ∧
    ∀ (have_info : Str → Bool) (get_info : Str → config),
      format_entry
        { env with have_addon_install_info := have_info,
                   get_addon_install_info := get_info } file = Outcome.ok file := by
  refine ⟨format_entry_empty_base env file htree hbase, ?_⟩
  intro have_info get_info
  exact format_entry_empty_base _ file htree hbase

/-- Witness of C11: `/a/` under the add-ons root `/a` ends in a separator, so its leaf
name is empty; the entry is `/a/` although the store has a titled record for every
identifier. -/
theorem C11_empty_base_passes_through_witness :
    format_entry titled_env ['/', 'a', '/'] = Outcome.ok ['/', 'a', '/'] :=
  (C11_empty_base_passes_through titled_env ['/', 'a', '/'] (by decide) (by decide)).1

/-- C14: for a string `s` with at least one character that is not a directory
separator (and shorter than `2 ^ 64` characters, as every `std::string` is),
`strip_trailing_dir_separators` returns a value `kept`; `kept` is a prefix of `s`, what
was removed is made of separators only, the last character of `kept` is not a
separator, every longer prefix of `s` ends in a separator (so `kept` is the longest
prefix that does not), and stripping `kept` again returns `kept`. The separators are
`/`, and on Windows also the backslash (character 92). -/
theorem C14_strip_removes_trailing_separators_only (win32 : Bool) (s : Str)
    (hs : ∃ x ∈ s, is_dir_separator win32 x = false) (hlen : s.length < SIZE_MOD) :
    (∃ (kept tail : Str),
      strip_trailing_dir_separators win32 s = Outcome.ok kept ∧
      s = kept ++ tail ∧ kept <+: s ∧
      (∀ x ∈ tail, is_dir_separator win32 x = true) ∧
      (∃ c, kept.getLast? = some c ∧ is_dir_separator win32 c = false) ∧
      (∀ p : Str, p <+: s → kept.length < p.length →
        ∀ c, p.getLast? = some c → is_dir_separator win32 c = true) ∧
      strip_trailing_dir_separators win32 kept = Outcome.ok kept) ∧
    (∀ c : Char, is_dir_separator false c = true ↔ c = '/') ∧
    (∀ c : Char, is_dir_separator true c = true ↔ (c = '/' ∨ c = Char.ofNat 92)) := by
  refine ⟨?_, ?_, ?_⟩
  · obtain ⟨r, c, tail, hshape, hc, htail⟩ := exists_last_non_separator win32 s hs
    subst hshape
    have hkeptlen : ((r ++ [c]) ++ ([] : Str)).length < SIZE_MOD := by
      simp only [List.length_append, List.length_cons, List.length_nil] at hlen ⊢
      omega
    refine ⟨r ++ [c], tail, ?_, rfl, ⟨tail, rfl⟩, htail, ⟨c, by simp, hc⟩, ?_, ?_⟩
    · unfold strip_trailing_dir_separators
      exact strip_loop_trailing win32 r c hc tail htail _
        (by simp only [List.length_append, List.length_cons, List.length_nil]; omega) hlen
    · intro p hp hlong x hx
      exact htail x (last_of_longer_prefix_mem (r ++ [c]) tail p hp hlong x hx)
    · unfold strip_trailing_dir_separators
      have h := strip_loop_trailing win32 r c hc [] (by simp) ((r ++ [c]).length + 1)
        (by simp) hkeptlen
      simpa using h
  · intro c
    simp [is_dir_separator]
  · intro c
    simp [is_dir_separator]

/-- Witness of C14: `a//` is stripped to `a`. -/
theorem C14_strip_removes_trailing_separators_only_witness :
    ∃ (kept tail : Str),
      strip_trailing_dir_separators false ['a', '/', '/'] = Outcome.ok kept ∧
      ['a', '/', '/'] = kept ++ tail ∧ kept <+: ['a', '/', '/'] ∧
      (∀ x ∈ tail, is_dir_separator false x = true) ∧
      (∃ c, kept.getLast? = some c ∧ is_dir_separator false c = false) ∧
      (∀ p : Str, p <+: ['a', '/', '/'] → kept.length < p.length →
        ∀ c, p.getLast? = some c → is_dir_separator false c = true) ∧
      strip_trailing_dir_separators false kept = Outcome.ok kept :=
  (C14_strip_removes_trailing_separators_only false ['a', '/', '/'] ⟨'a', by decide, by decide⟩
    (by decide)).1

/-- C12: the candidate containing directory is taken one level further up only for
main configuration files. With the path utilities of the specification and an add-ons
root that is not its own parent (`root/..` and `root` have different normal forms):
for `<root>/_main.cfg` the candidate is `<root>//..`, which is not the root, and the
entry is the path itself; for a non-main file `<root>/d/f.cfg` placed one directory
below the root (`d` a proper directory name: non-empty, without separator, neither `.`
nor `..`) the candidate is `<root>/d/`, which is not the root, and the entry is the
path itself. -/
theorem C12_one_level_up_only_for_main_cfg (win32 : Bool) (root d f : Str)
    (have_info : Str → Bool) (get_info : Str → config) (bullet : Str)
    (hparent : normalize_path win32 (root ++ up_one_level) ≠ normalize_path win32 root)
    (hd : d ≠ []) (hdsep : ∀ c ∈ d, is_dir_separator win32 c = false)
    (hdot : d ≠ ['.']) (hdotdot : d ≠ ['.', '.'])
    (hfsep : ∀ c ∈ f, is_dir_separator win32 c = false)
    (hmain : f ++ wml_suffix ≠ main_cfg) :
    (is_main_cfg (spec_env win32 root have_info get_info bullet) (root_main_cfg_path root)
        = true ∧
      parent_path (spec_env win32 root have_info get_info bullet) (root_main_cfg_path root)
        = (root ++ ['/']) ++ up_one_level ∧
      in_addons_tree (spec_env win32 root have_info get_info bullet)
        (root_main_cfg_path root) = false ∧
      format_entry (spec_env win32 root have_info get_info bullet) (root_main_cfg_path root)
        = Outcome.ok (root_main_cfg_path root)) ∧
    (is_main_cfg (spec_env win32 root have_info get_info bullet) (nested_file_path root d f)
        = false ∧
      parent_path (spec_env win32 root have_info get_info bullet) (nested_file_path root d f)
        = (root ++ '/' :: d) ++ ['/'] ∧
      in_addons_tree (spec_env win32 root have_info get_info bullet)
        (nested_file_path root d f) = false ∧
      format_entry (spec_env win32 root have_info get_info bullet)
        (nested_file_path root d f) = Outcome.ok (nested_file_path root d f)) := by
  constructor
  · have hfile : file_name win32 (root_main_cfg_path root) = main_cfg :=
      file_name_append win32 root main_cfg (main_cfg_no_separator win32)
    have hdir : directory_name win32 (root_main_cfg_path root) = root ++ ['/'] :=
      directory_name_append win32 root main_cfg (main_cfg_no_separator win32)
    have hismain : is_main_cfg (spec_env win32 root have_info get_info bullet)
        (root_main_cfg_path root) = true := by
      simp [is_main_cfg, spec_env, hfile]
    have hpp : parent_path (spec_env win32 root have_info get_info bullet)
        (root_main_cfg_path root) = (root ++ ['/']) ++ up_one_level := by
      simp only [parent_path, hismain, if_true]
      simp only [spec_env, hdir]
    have hnorm : normalize_path win32 ((root ++ ['/']) ++ up_one_level)
        = normalize_path win32 (root ++ up_one_level) := by
      unfold normalize_path
      rw [norm_components_slash_up]
    have htree : in_addons_tree (spec_env win32 root have_info get_info bullet)
        (root_main_cfg_path root) = false := by
      simp only [in_addons_tree, hpp, decide_eq_false_iff_not]
      simp only [spec_env, hnorm]
      exact hparent
    exact ⟨hismain, hpp, htree, format_entry_outside_tree _ _ htree⟩
  · have hleaf : ∀ c ∈ f ++ wml_suffix, is_dir_separator win32 c = false := by
      intro c hc
      rcases List.mem_append.mp hc with h | h
      · exact hfsep c h
      · exact wml_suffix_no_separator win32 c h
    have hfile : file_name win32 (nested_file_path root d f) = f ++ wml_suffix :=
      file_name_append win32 (root ++ '/' :: d) (f ++ wml_suffix) hleaf
    have hdir : directory_name win32 (nested_file_path root d f)
        = (root ++ '/' :: d) ++ ['/'] :=
      directory_name_append win32 (root ++ '/' :: d) (f ++ wml_suffix) hleaf
    have hnotmain : is_main_cfg (spec_env win32 root have_info get_info bullet)
        (nested_file_path root d f) = false := by
      simp [is_main_cfg, spec_env, hfile, hmain]
    have hpp : parent_path (spec_env win32 root have_info get_info bullet)
        (nested_file_path root d f) = (root ++ '/' :: d) ++ ['/'] := by
      simp only [parent_path, hnotmain]
      simp [spec_env, hdir]
    have htree : in_addons_tree (spec_env win32 root have_info get_info bullet)
        (nested_file_path root d f) = false := by
      simp only [in_addons_tree, hpp, decide_eq_false_iff_not]
      simp only [spec_env]
      exact normalize_path_ne_of_child win32 _ root d hd
        (norm_components_child win32 root d hd hdsep hdot hdotdot)
    exact ⟨hnotmain, hpp, htree, format_entry_outside_tree _ _ htree⟩

/-- Witness of C12: with the add-ons root `/a`, the entries of `/a/_main.cfg` and of
`/a/d/f.cfg` are the paths themselves. -/
theorem C12_one_level_up_only_for_main_cfg_witness :
    format_entry plain_env (root_main_cfg_path ['/', 'a'])
      = Outcome.ok (root_main_cfg_path ['/', 'a']) ∧
    format_entry plain_env (nested_file_path ['/', 'a'] ['d'] ['f'])
      = Outcome.ok (nested_file_path ['/', 'a'] ['d'] ['f']) :=
  ⟨(C12_one_level_up_only_for_main_cfg false ['/', 'a'] ['d'] ['f'] (fun _ => false)
      (fun _ => empty_record) ['*', ' '] (by decide) (by decide) (by decide) (by decide)
      (by decide) (by decide) (by decide)).1.2.2.2,
   (C12_one_level_up_only_for_main_cfg false ['/', 'a'] ['d'] ['f'] (fun _ => false)
      (fun _ => empty_record) ['*', ' '] (by decide) (by decide) (by decide) (by decide)
      (by decide) (by decide) (by decide)).2.2.2.2⟩

/-- C13: the dialog hides the `files` field exactly when the input list is empty.
For the empty list the constructor sets `have_files_` to false and registers the empty
string for `files`. Whenever the constructor completes, `have_files_` is false exactly
when the list is empty, and the labels registered are `summary` with the summary given,
`files` with the result of `format_file_list`, and `details` with the details given, in
this order. `pre_show` makes the control `files` invisible and leaves every other
control alone when `have_files_` is false, and leaves the whole window alone when it is
true; so a `files` control that was not invisible before is invisible after `pre_show`
exactly when the list was empty. -/
theorem C13_files_field_hidden_iff_no_files (env : Collaborators) (summary details : Str)
    (files : List Str) :
    twml_error.construct env summary [] details
      = Outcome.ok
          { have_files_ := false
            labels := [registered_label.mk summary_id true summary,
                       registered_label.mk files_id true [],
                       registered_label.mk details_id true details] } ∧
    (∀ files_text : Str, format_file_list env files = Outcome.ok files_text →
      ∃ dialog, twml_error.construct env summary files details = Outcome.ok dialog) ∧
    (∀ dialog : twml_error,
      twml_error.construct env summary files details = Outcome.ok dialog →
      (dialog.have_files_ = false ↔ files = []) ∧
      ∃ files_text : Str, format_file_list env files = Outcome.ok files_text ∧
        (files = [] → files_text = []) ∧
        dialog.labels = [registered_label.mk summary_id true summary,
                         registered_label.mk files_id true files_text,
                         registered_label.mk details_id true details]) ∧
    (∀ (dialog : twml_error) (window : twindow), dialog.have_files_ = false →
      dialog.pre_show window files_id = tvisible.invisible ∧
      ∀ id : Str, id ≠ files_id → dialog.pre_show window id = window id) ∧
    (∀ (dialog : twml_error) (window : twindow), dialog.have_files_ = true →
      dialog.pre_show window = window) ∧
    (∀ (dialog : twml_error) (window : twindow),
      twml_error.construct env summary files details = Outcome.ok dialog →
      window files_id ≠ tvisible.invisible →
      (dialog.pre_show window files_id = tvisible.invisible ↔ files = [])) := by
  have hctor : ∀ dialog : twml_error,
      twml_error.construct env summary files details = Outcome.ok dialog →
      (dialog.have_files_ = false ↔ files = []) ∧
      ∃ files_text : Str, format_file_list env files = Outcome.ok files_text ∧
        (files = [] → files_text = []) ∧
        dialog.labels = [registered_label.mk summary_id true summary,
                         registered_label.mk files_id true files_text,
                         registered_label.mk details_id true details] := by
    intro dialog hdialog
    unfold twml_error.construct at hdialog
    cases hfmt : format_file_list env files with
    | ok files_text =>
      rw [hfmt] at hdialog
      simp only [] at hdialog
      injection hdialog with hdialog
      subst hdialog
      refine ⟨by simp, files_text, rfl, ?_, rfl⟩
      intro hempty
      subst hempty
      have h0 : format_file_list env [] = Outcome.ok [] := rfl
      rw [h0] at hfmt
      injection hfmt with hfmt
      exact hfmt.symm
    | out_of_bounds => rw [hfmt] at hdialog; cases hdialog
    | out_of_fuel => rw [hfmt] at hdialog; cases hdialog
  have hhide : ∀ (dialog : twml_error) (window : twindow), dialog.have_files_ = false →
      dialog.pre_show window files_id = tvisible.invisible ∧
      ∀ id : Str, id ≠ files_id → dialog.pre_show window id = window id := by
    intro dialog window hno
    constructor
    · simp [twml_error.pre_show, hno]
    · intro id hid
      simp [twml_error.pre_show, hno, hid]
  have hkeep : ∀ (dialog : twml_error) (window : twindow), dialog.have_files_ = true →
      dialog.pre_show window = window := by
    intro dialog window hyes
    simp [twml_error.pre_show, hyes]
  refine ⟨rfl, ?_, hctor, hhide, hkeep, ?_⟩
  · intro files_text hfmt
    unfold twml_error.construct
    rw [hfmt]
    exact ⟨_, rfl⟩
  · intro dialog window hdialog hvisible
    have hiff := (hctor dialog hdialog).1
    constructor
    · intro hinv
      cases hhave : dialog.have_files_ with
      | false => exact hiff.mp hhave
      | true =>
        rw [hkeep dialog window hhave] at hinv
        exact absurd hinv hvisible
    · intro hempty
      exact (hhide dialog window (hiff.mpr hempty)).1

/-- Witness of C13: constructed with the single file `/x/y`, the dialog keeps the
visible `files` control visible; its labels are the summary, the path and the details. -/
theorem C13_files_field_hidden_iff_no_files_witness :
    (twml_error.pre_show
        { have_files_ := true
          labels := [registered_label.mk summary_id true ['s'],
                     registered_label.mk files_id true ['/', 'x', '/', 'y'],
                     registered_label.mk details_id true ['d']] }
        (fun _ => tvisible.visible) files_id = tvisible.invisible
      ↔ [['/', 'x', '/', 'y']] = ([] : List Str)) :=
  (C13_files_field_hidden_iff_no_files plain_env ['s'] ['d'] [['/', 'x', '/', 'y']]).2.2.2.2.2
    { have_files_ := true
      labels := [registered_label.mk summary_id true ['s'],
                 registered_label.mk files_id true ['/', 'x', '/', 'y'],
                 registered_label.mk details_id true ['d']] }
    (fun _ => tvisible.visible) (by decide) (by decide)

end WmlError
